import Mathlib

/-!
Verification development for the gorest HTTP client toolkit.

This file gives a shallow embedding, in Lean 4, of the core transport
pipeline of the gorest repository: the Retry-After header parser, the
retry middleware (`RetryMiddleware`), the middleware chaining mechanism
(`ChainMiddlewares`), the logging middleware
(`LoggingMiddlewareWithConfig`), the chunked streaming reader
(`Response.StreamChunks`), and the asynchronous dispatch/join mechanism
(`DoAsync` / `DoGroupAsync` / `JoinAsyncResponses`).

Conventions used throughout the embedding:
- Go byte slices are modelled as `List Nat` (for the retry component)
  or as `String` (for the logging component, where only textual content
  reaches the log sink).
- Go's `(value, error)` pairs are modelled with `Except`/sum-like
  inductives; a `nil` error together with a response is the `ok` case.
- Machine integers (`int`, `int64`, `time.Duration`) are modelled as
  `Int` with explicit 64-bit wrap (`wrap64`) where Go multiplication may
  overflow, and explicit saturation (`sat64`) where Go's `time.Time.Sub`
  saturates.
- Side effects of the retry middleware (body reads, executor
  invocations, sleeps, body drain-and-close) are recorded in an explicit
  event trace.
- Go standard-library collaborators that the code calls but does not
  define (`http.ParseTime`, `httputil.DumpRequestOut`,
  `httputil.DumpResponse`, wall-clock time) are passed in as explicit
  oracle parameters.
-/

/-! ## 64-bit integer arithmetic helpers (Go `int64` / `time.Duration`) -/

def int64Min : Int := -9223372036854775808

def int64Max : Int := 9223372036854775807

/-- Two's-complement wraparound into the signed 64-bit range, the
behaviour of Go multiplication on `time.Duration`. -/
def wrap64 (x : Int) : Int :=
  (x + 9223372036854775808) % 18446744073709551616 - 9223372036854775808

/-- Saturation into the signed 64-bit range, the documented behaviour of
Go's `time.Time.Sub` when the difference overflows a `Duration`. -/
def sat64 (x : Int) : Int :=
  if x < int64Min then int64Min else if x > int64Max then int64Max else x

/-! ## `strconv.Atoi` (decimal, 64-bit `int`), as used by `ParseRetryAfter` -/

/-- Value of a list of decimal digit characters, most significant first. -/
def decValue (ds : List Char) : Nat :=
  ds.foldl (fun acc c => acc * 10 + (c.toNat - '0'.toNat)) 0

/-- The digit part of the candidate integer string: everything after an
optional leading sign character. -/
def atoiDigits (cs : List Char) : List Char :=
  if cs.head? = some '+' ∨ cs.head? = some '-' then cs.tail else cs

/-- The sign contributed by an optional leading sign character. -/
def atoiSign (cs : List Char) : Int :=
  if cs.head? = some '-' then -1 else 1

/-- Model of Go's `strconv.Atoi` on a 64-bit platform: an optional sign
followed by one or more decimal digits, rejected when empty, malformed,
or out of the signed 64-bit range.  `none` stands for a non-nil error. -/
def Atoi (s : String) : Option Int :=
  if (atoiDigits s.toList).isEmpty then none
  else if (atoiDigits s.toList).all (fun c => c.isDigit) then
    if int64Min ≤ atoiSign s.toList * (decValue (atoiDigits s.toList) : Int) ∧
        atoiSign s.toList * (decValue (atoiDigits s.toList) : Int) ≤ int64Max then
      some (atoiSign s.toList * (decValue (atoiDigits s.toList) : Int))
    else none
  else none

/-! ## `ParseRetryAfter` (src/gorest/middleware.go lines 213-230)

The HTTP-date parser `http.ParseTime` is a standard-library collaborator
and is passed in as an oracle `pt : String → Option Int` returning the
parsed absolute time in nanoseconds since the epoch (`none` = parse
error).  `wallNow` models `time.Now()` in nanoseconds. -/

def ParseRetryAfter (pt : String → Option Int) (wallNow : Int)
    (header : String) (baseline : Option Int) : Except String Int :=
  let now := match baseline with
    | some b => b
    | none => wallNow
  match Atoi header with
  | some seconds => .ok (wrap64 (seconds * 1000000000))
  | none =>
    match pt header with
    | some t =>
      let d := sat64 (t - now)
      if d < 0 then .ok 0 else .ok d
    | none => .error ("invalid Retry-After header: " ++ header)

example : ParseRetryAfter (fun _ => none) 0 "2" none = .ok 2000000000 := rfl
example : ParseRetryAfter (fun _ => none) 0 "-5" none = .ok (-5000000000) := rfl
example : ParseRetryAfter (fun _ => none) 0 "x" none =
    .error "invalid Retry-After header: x" := rfl
example : ParseRetryAfter (fun s => if s = "date" then some 5000000000 else none) 0
    "date" (some 3000000000) = .ok 2000000000 := rfl
example : ParseRetryAfter (fun s => if s = "date" then some 1000000000 else none) 0
    "date" (some 3000000000) = .ok 0 := rfl

/-! ## Retry middleware embedding (src/gorest/middleware.go lines 28-84)

`RetryMiddleware(attempts, retryDelay)` wraps an inner executor
(`next`).  The embedding records the middleware's side effects in an
explicit event trace and models the inner executor as a pure function
from the invocation index to its outcome. -/

/-- Response bytes, modelling a Go byte slice. -/
abbrev Bytes := List Nat

/-- An `*http.Response` as seen by the retry middleware: status code,
header map, body content. -/
structure HttpResponse where
  statusCode : Int
  headers : List (String × String)
  body : Bytes
deriving DecidableEq, Repr

/-- Go's `http.Header.Get`: first value stored under the key, or the
empty string when the key is absent. -/
def headerGet (hs : List (String × String)) (k : String) : String :=
  match hs.find? (fun p => p.1 = k) with
  | some p => p.2
  | none => ""

/-- An `*http.Request` as seen by the retry middleware.  `body` is
`none` for a nil body, `some (.error e)` for a body whose `io.ReadAll`
fails with `e`, and `some (.ok bs)` for a readable body with bytes `bs`.
`ctxCancelFrom = some k` means the request's context reports
cancellation at the `k`-th (and every later) loop-entry check;
`none` means the context is never cancelled. -/
structure HttpRequest where
  headers : List (String × String)
  body : Option (Except String Bytes)
  ctxCancelFrom : Option Nat
deriving Repr

/-- `req.Context().Err()` at the `i`-th loop-entry check. -/
def ctxErrAt (cancelFrom : Option Nat) (i : Nat) : Option String :=
  match cancelFrom with
  | some k => if k ≤ i then some "context canceled" else none
  | none => none

/-- Outcome of one invocation of the inner executor: a transport-level
error (`next` returned `nil, err`), or a response with nil error. -/
inductive ExecOutcome where
  | transportErr (msg : String)
  | ok (resp : HttpResponse)
deriving DecidableEq, Repr

/-- The per-attempt request the inner executor receives: the clone of
the original request (same header map contents) carrying a fresh stream
over the buffered body bytes. -/
structure AttemptRequest where
  headers : List (String × String)
  body : Option Bytes
deriving DecidableEq, Repr

/-- Observable side effects of `RetryMiddleware`, in order. -/
inductive Event where
  | bodyRead
  | invoke (i : Nat) (req : AttemptRequest)
  | sleep (d : Int)
  | drainClose (status : Int)
deriving DecidableEq, Repr

/-- What the wrapped round-trip function returns: `(resp, nil)`,
`(nil, err)`, or a nil-pointer panic (reading `resp.StatusCode` on a
nil response at line 81). -/
inductive RetryResult where
  | ok (resp : HttpResponse)
  | err (msg : String)
  | nilPanic
deriving DecidableEq, Repr

/-- Classification of one attempt outcome, following lines 57-75 of
src/gorest/middleware.go: a transport error records the error and
continues; a 429 with a present, parseable Retry-After header drains
and sleeps for the parsed delay, then continues; a status of at least
500 drains and sleeps for the configured delay, then continues; every
other outcome is returned as the final result. -/
inductive StepClass where
  | errContinue (msg : String)
  | final (resp : HttpResponse)
  | retryAfter429 (resp : HttpResponse) (delay : Int)
  | retry5xx (resp : HttpResponse)
deriving DecidableEq, Repr

def classifyOutcome (pt : String → Option Int) (now : Int) :
    ExecOutcome → StepClass
  | .transportErr m => .errContinue m
  | .ok resp =>
    if resp.statusCode = 429 then
      if headerGet resp.headers "Retry-After" ≠ "" then
        match ParseRetryAfter pt now (headerGet resp.headers "Retry-After") (some now) with
        | .ok d => .retryAfter429 resp d
        | .error _ => .final resp
      else .final resp
    else if 500 ≤ resp.statusCode then .retry5xx resp
    else .final resp

/-- True exactly when the classified outcome makes the loop return
rather than continue to the next attempt. -/
def isFinalStep : StepClass → Bool
  | .final _ => true
  | _ => false

/-- The per-call context of one run of the wrapped round-trip function:
the inner executor, configuration, oracles, and the request data fixed
before the loop. -/
structure RetryCtx where
  next : Nat → ExecOutcome
  retryDelay : Int
  pt : String → Option Int
  now : Int
  reqHeaders : List (String × String)
  ctxCancelFrom : Option Nat
  bodyBytes : Option Bytes

/-- The cloned per-attempt request (lines 47-51): header map copied from
the original, body re-wrapped as a fresh stream over the buffer. -/
def mkAttempt (c : RetryCtx) : AttemptRequest :=
  { headers := c.reqHeaders, body := c.bodyBytes }

/-- The backoff sleep before attempt `i` (lines 53-55): only for `i > 0`. -/
def preSleep (i : Nat) (d : Int) : List Event :=
  if 0 < i then [Event.sleep d] else []

/-- The retry loop (lines 41-81).  `rem` is the remaining attempt
budget, `i` the current loop index, `lastResp`/`lastErr` the values of
the Go variables `resp` and `err` entering the iteration.  Returns the
call's result and the trace of events the loop produces. -/
def retryLoop (c : RetryCtx) :
    Nat → Nat → Option HttpResponse → Option String → RetryResult × List Event
  | 0, _, lastResp, lastErr =>
    match lastErr with
    | some e => (.err ("all retry attempts failed: " ++ e), [])
    | none =>
      match lastResp with
      | some r =>
        (.err ("all retry attempts exhausted, last status: " ++ toString r.statusCode), [])
      | none => (.nilPanic, [])
  | rem + 1, i, _, _ =>
    match ctxErrAt c.ctxCancelFrom i with
    | some e => (.err e, [])
    | none =>
      let pre := preSleep i c.retryDelay
      match classifyOutcome c.pt c.now (c.next i) with
      | .errContinue m =>
        let rest := retryLoop c rem (i + 1) none (some m)
        (rest.1, pre ++ Event.invoke i (mkAttempt c) :: rest.2)
      | .final resp =>
        (.ok resp, pre ++ [Event.invoke i (mkAttempt c)])
      | .retryAfter429 resp d =>
        let rest := retryLoop c rem (i + 1) (some resp) none
        (rest.1, pre ++ Event.invoke i (mkAttempt c) ::
          Event.drainClose resp.statusCode :: Event.sleep d :: rest.2)
      | .retry5xx resp =>
        let rest := retryLoop c rem (i + 1) (some resp) none
        (rest.1, pre ++ Event.invoke i (mkAttempt c) ::
          Event.drainClose resp.statusCode :: Event.sleep c.retryDelay :: rest.2)

/-- One full run of the round-trip function `RetryMiddleware(attempts,
retryDelay)(next)` on `req` (lines 30-82): buffer the request body up
front (aborting on a read error), then run the attempt loop.  A Go
`for i := 0; i < attempts; i++` loop over an `int` bound executes
`attempts.toNat` iterations. -/
def retryRun (attempts retryDelay : Int) (pt : String → Option Int) (now : Int)
    (next : Nat → ExecOutcome) (req : HttpRequest) : RetryResult × List Event :=
  match req.body with
  | some (.error e) => (.err e, [Event.bodyRead])
  | some (.ok bs) =>
    let c : RetryCtx :=
      ⟨next, retryDelay, pt, now, req.headers, req.ctxCancelFrom, some bs⟩
    let r := retryLoop c attempts.toNat 0 none none
    (r.1, Event.bodyRead :: r.2)
  | none =>
    let c : RetryCtx :=
      ⟨next, retryDelay, pt, now, req.headers, req.ctxCancelFrom, none⟩
    retryLoop c attempts.toNat 0 none none

/-- Number of inner-executor invocations recorded in a trace. -/
def countInvokes (tr : List Event) : Nat :=
  tr.countP fun e =>
    match e with
    | .invoke _ _ => true
    | _ => false

example :
    retryRun 1 7 (fun _ => none) 0 (fun _ => .transportErr "fail")
      { headers := [], body := none, ctxCancelFrom := none } =
    (.err "all retry attempts failed: fail",
      [Event.invoke 0 { headers := [], body := none }]) := by decide

example :
    retryRun 3 7 (fun _ => none) 0 (fun _ => .ok ⟨200, [], []⟩)
      { headers := [], body := none, ctxCancelFrom := some 0 } =
    (.err "context canceled", []) := by decide

example :
    retryRun 3 7 (fun _ => none) 0
      (fun i => if i = 0 then .ok ⟨500, [], [1]⟩ else .ok ⟨200, [], [2]⟩)
      { headers := [], body := some (.ok [9]), ctxCancelFrom := none } =
    (.ok ⟨200, [], [2]⟩,
      [Event.bodyRead, Event.invoke 0 { headers := [], body := some [9] },
       Event.drainClose 500, Event.sleep 7, Event.sleep 7,
       Event.invoke 1 { headers := [], body := some [9] }]) := by decide

example :
    retryRun 0 7 (fun _ => none) 0 (fun _ => .ok ⟨200, [], []⟩)
      { headers := [], body := none, ctxCancelFrom := none } =
    (.nilPanic, []) := by decide

/-! ### Helper lemmas about the retry loop -/

theorem countInvokes_append (a b : List Event) :
    countInvokes (a ++ b) = countInvokes a + countInvokes b := by
  simp [countInvokes, List.countP_append]

theorem countInvokes_preSleep (i : Nat) (d : Int) :
    countInvokes (preSleep i d) = 0 := by
  unfold preSleep
  by_cases h : 0 < i <;> simp [h, countInvokes]

theorem countInvokes_cons_invoke (i : Nat) (r : AttemptRequest) (tr : List Event) :
    countInvokes (Event.invoke i r :: tr) = countInvokes tr + 1 := by
  simp [countInvokes, List.countP_cons]

theorem countInvokes_cons_other (e : Event) (tr : List Event)
    (h : ∀ i r, e ≠ Event.invoke i r) :
    countInvokes (e :: tr) = countInvokes tr := by
  cases e with
  | invoke i r => exact absurd rfl (h i r)
  | bodyRead => simp [countInvokes, List.countP_cons]
  | sleep d => simp [countInvokes, List.countP_cons]
  | drainClose s => simp [countInvokes, List.countP_cons]

/-- Shape of the events the retry loop can emit: backoff or Retry-After
sleeps, drain-and-close operations, and invocations of the inner
executor — every invocation carrying the cloned request `mkAttempt c`,
happening at an index at least `i`, and only while the context check
passed. -/
theorem retryLoop_trace_shape (c : RetryCtx) :
    ∀ rem i lastResp lastErr, ∀ e ∈ (retryLoop c rem i lastResp lastErr).2,
      (∃ d, e = Event.sleep d) ∨ (∃ st, e = Event.drainClose st) ∨
      (∃ j, e = Event.invoke j (mkAttempt c) ∧ i ≤ j ∧
        ctxErrAt c.ctxCancelFrom j = none) := by
  intro rem
  induction rem with
  | zero =>
    intro i lastResp lastErr e he
    cases lastErr with
    | some m => simp [retryLoop] at he
    | none => cases lastResp with
      | some r => simp [retryLoop] at he
      | none => simp [retryLoop] at he
  | succ rem ih =>
    intro i lastResp lastErr e he
    rw [retryLoop] at he
    cases hctx : ctxErrAt c.ctxCancelFrom i with
    | some m => rw [hctx] at he; simp at he
    | none =>
      rw [hctx] at he
      have hpre : ∀ x ∈ preSleep i c.retryDelay, ∃ d, x = Event.sleep d := by
        intro x hx
        unfold preSleep at hx
        by_cases h0 : 0 < i <;> simp [h0] at hx
        exact ⟨c.retryDelay, hx⟩
      cases hcl : classifyOutcome c.pt c.now (c.next i) with
      | errContinue m =>
        rw [hcl] at he
        simp only [List.mem_append, List.mem_cons] at he
        rcases he with hp | (hinv | hrest)
        · exact .inl (hpre e hp)
        · exact .inr (.inr ⟨i, hinv, Nat.le_refl i, hctx⟩)
        · rcases ih (i + 1) none (some m) e hrest with h1 | h2 | ⟨j, hj, hij, hcj⟩
          · exact .inl h1
          · exact .inr (.inl h2)
          · exact .inr (.inr ⟨j, hj, Nat.le_of_succ_le hij, hcj⟩)
      | final resp =>
        rw [hcl] at he
        simp only [List.mem_append, List.mem_cons, List.mem_singleton] at he
        rcases he with hp | hinv
        · exact .inl (hpre e hp)
        · simp at hinv
          exact .inr (.inr ⟨i, hinv, Nat.le_refl i, hctx⟩)
      | retryAfter429 resp d =>
        rw [hcl] at he
        simp only [List.mem_append, List.mem_cons] at he
        rcases he with hp | (hinv | (hdc | (hsl | hrest)))
        · exact .inl (hpre e hp)
        · exact .inr (.inr ⟨i, hinv, Nat.le_refl i, hctx⟩)
        · exact .inr (.inl ⟨resp.statusCode, hdc⟩)
        · exact .inl ⟨d, hsl⟩
        · rcases ih (i + 1) (some resp) none e hrest with h1 | h2 | ⟨j, hj, hij, hcj⟩
          · exact .inl h1
          · exact .inr (.inl h2)
          · exact .inr (.inr ⟨j, hj, Nat.le_of_succ_le hij, hcj⟩)
      | retry5xx resp =>
        rw [hcl] at he
        simp only [List.mem_append, List.mem_cons] at he
        rcases he with hp | (hinv | (hdc | (hsl | hrest)))
        · exact .inl (hpre e hp)
        · exact .inr (.inr ⟨i, hinv, Nat.le_refl i, hctx⟩)
        · exact .inr (.inl ⟨resp.statusCode, hdc⟩)
        · exact .inl ⟨c.retryDelay, hsl⟩
        · rcases ih (i + 1) (some resp) none e hrest with h1 | h2 | ⟨j, hj, hij, hcj⟩
          · exact .inl h1
          · exact .inr (.inl h2)
          · exact .inr (.inr ⟨j, hj, Nat.le_of_succ_le hij, hcj⟩)

/-- When every attempt in the remaining budget hits a transport error
and the context stays live, the loop exhausts the budget, wraps the last
error, and invokes the executor once per budgeted attempt. -/
theorem retryLoop_all_errors (c : RetryCtx) (m : Nat → String)
    (hctx : c.ctxCancelFrom = none) :
    ∀ rem i lastResp lastErr,
      (∀ j, i ≤ j → j < i + (rem + 1) → c.next j = .transportErr (m j)) →
      (retryLoop c (rem + 1) i lastResp lastErr).1 =
          .err ("all retry attempts failed: " ++ m (i + rem)) ∧
        countInvokes (retryLoop c (rem + 1) i lastResp lastErr).2 = rem + 1 := by
  intro rem
  induction rem with
  | zero =>
    intro i lastResp lastErr hnext
    have h0 : c.next i = .transportErr (m i) := hnext i (Nat.le_refl i) (by omega)
    rw [retryLoop]
    simp only [hctx, ctxErrAt, h0, classifyOutcome, retryLoop]
    constructor
    · simp
    · rw [countInvokes_append, countInvokes_preSleep, countInvokes_cons_invoke]
      simp [countInvokes]
  | succ rem ih =>
    intro i lastResp lastErr hnext
    have h0 : c.next i = .transportErr (m i) := hnext i (Nat.le_refl i) (by omega)
    rw [retryLoop]
    simp only [hctx, ctxErrAt, h0, classifyOutcome]
    have hrec := ih (i + 1) none (some (m i))
      (fun j h1 h2 => hnext j (by omega) (by omega))
    have hidx : i + 1 + rem = i + (rem + 1) := by omega
    rw [hidx] at hrec
    refine ⟨hrec.1, ?_⟩
    rw [countInvokes_append, countInvokes_preSleep, countInvokes_cons_invoke, hrec.2]
    omega

/-- When every attempt in the remaining budget is classified as
retryable (429 with parseable Retry-After, or a 5xx status) and the
context stays live, the loop exhausts the budget, reports the last
retryable status, and invokes the executor once per budgeted attempt. -/
theorem retryLoop_all_retryable (c : RetryCtx) (r : Nat → HttpResponse)
    (hctx : c.ctxCancelFrom = none) :
    ∀ rem i lastResp lastErr,
      (∀ j, i ≤ j → j < i + (rem + 1) →
        (∃ d, classifyOutcome c.pt c.now (c.next j) = .retryAfter429 (r j) d) ∨
          classifyOutcome c.pt c.now (c.next j) = .retry5xx (r j)) →
      (retryLoop c (rem + 1) i lastResp lastErr).1 =
          .err ("all retry attempts exhausted, last status: " ++
            toString (r (i + rem)).statusCode) ∧
        countInvokes (retryLoop c (rem + 1) i lastResp lastErr).2 = rem + 1 := by
  intro rem
  induction rem with
  | zero =>
    intro i lastResp lastErr hnext
    have h0 := hnext i (Nat.le_refl i) (by omega)
    rw [retryLoop]
    simp only [hctx, ctxErrAt]
    rcases h0 with ⟨d, hcl⟩ | hcl
    all_goals
      rw [hcl]
      simp only [retryLoop]
      refine ⟨by simp, ?_⟩
      rw [countInvokes_append, countInvokes_preSleep, countInvokes_cons_invoke]
      simp [countInvokes, List.countP_cons]
  | succ rem ih =>
    intro i lastResp lastErr hnext
    have h0 := hnext i (Nat.le_refl i) (by omega)
    rw [retryLoop]
    simp only [hctx, ctxErrAt]
    have hrec := ih (i + 1) (some (r i)) none
      (fun j h1 h2 => hnext j (by omega) (by omega))
    have hidx : i + 1 + rem = i + (rem + 1) := by omega
    rw [hidx] at hrec
    rcases h0 with ⟨d, hcl⟩ | hcl
    all_goals
      rw [hcl]
      refine ⟨hrec.1, ?_⟩
      rw [countInvokes_append, countInvokes_preSleep]
      rw [countInvokes_cons_invoke]
      rw [countInvokes_cons_other _ _ (by intro a b h; cases h)]
      rw [countInvokes_cons_other _ _ (by intro a b h; cases h)]
      rw [hrec.2]
      omega

/-- When the context cancels from check `k` onwards, `k` falls inside
the remaining budget, and no earlier attempt returns a final result,
the loop stops at check `k` with the cancellation error after exactly
`k - i` further invocations. -/
theorem retryLoop_cancelled (c : RetryCtx) (k : Nat)
    (hc : c.ctxCancelFrom = some k)
    (hcont : ∀ j, j < k →
      isFinalStep (classifyOutcome c.pt c.now (c.next j)) = false) :
    ∀ rem i lastResp lastErr, i ≤ k → k < i + rem →
      (retryLoop c rem i lastResp lastErr).1 = .err "context canceled" ∧
        countInvokes (retryLoop c rem i lastResp lastErr).2 = k - i := by
  intro rem
  induction rem with
  | zero => intro i _ _ h1 h2; omega
  | succ rem ih =>
    intro i lastResp lastErr h1 h2
    rw [retryLoop]
    by_cases hik : i = k
    · subst hik
      simp [hc, ctxErrAt, countInvokes]
    · have hlt : i < k := by omega
      have hctxi : ctxErrAt c.ctxCancelFrom i = none := by
        simp [hc, ctxErrAt]; omega
      rw [hctxi]
      have hf := hcont i hlt
      cases hcl : classifyOutcome c.pt c.now (c.next i) with
      | final resp => rw [hcl] at hf; simp [isFinalStep] at hf
      | errContinue m =>
        have hrec := ih (i + 1) none (some m) (by omega) (by omega)
        refine ⟨hrec.1, ?_⟩
        rw [countInvokes_append, countInvokes_preSleep, countInvokes_cons_invoke,
          hrec.2]
        omega
      | retryAfter429 resp d =>
        have hrec := ih (i + 1) (some resp) none (by omega) (by omega)
        refine ⟨hrec.1, ?_⟩
        rw [countInvokes_append, countInvokes_preSleep, countInvokes_cons_invoke,
          countInvokes_cons_other _ _ (by intro a b h; cases h),
          countInvokes_cons_other _ _ (by intro a b h; cases h), hrec.2]
        omega
      | retry5xx resp =>
        have hrec := ih (i + 1) (some resp) none (by omega) (by omega)
        refine ⟨hrec.1, ?_⟩
        rw [countInvokes_append, countInvokes_preSleep, countInvokes_cons_invoke,
          countInvokes_cons_other _ _ (by intro a b h; cases h),
          countInvokes_cons_other _ _ (by intro a b h; cases h), hrec.2]
        omega

/-- The loop can only reach the nil-response dereference when it runs
zero iterations: entering with a positive budget, or with one of the
`resp`/`err` variables populated, never yields the panic. -/
theorem retryLoop_no_panic (c : RetryCtx) :
    ∀ rem i lastResp lastErr,
      (rem = 0 → lastErr ≠ none ∨ lastResp ≠ none) →
      (retryLoop c rem i lastResp lastErr).1 ≠ .nilPanic := by
  intro rem
  induction rem with
  | zero =>
    intro i lastResp lastErr h
    rcases h rfl with h1 | h1
    · cases lastErr with
      | none => exact absurd rfl h1
      | some e => simp [retryLoop]
    · cases lastErr with
      | some e => simp [retryLoop]
      | none =>
        cases lastResp with
        | none => exact absurd rfl h1
        | some r => simp [retryLoop]
  | succ rem ih =>
    intro i lastResp lastErr _
    rw [retryLoop]
    cases hctx : ctxErrAt c.ctxCancelFrom i with
    | some e => simp
    | none =>
      cases hcl : classifyOutcome c.pt c.now (c.next i) with
      | errContinue m => exact ih (i + 1) none (some m) (by intro h; left; simp)
      | final resp => simp
      | retryAfter429 resp d =>
        exact ih (i + 1) (some resp) none (by intro h; right; simp)
      | retry5xx resp =>
        exact ih (i + 1) (some resp) none (by intro h; right; simp)

/-! ## `ChainMiddlewares` (src/gorest/middleware.go lines 17-23)

The Go loop `for i := len(mws) - 1; i >= 0; i--` applies the
middlewares to the accumulator in reverse list order, which is the left
fold over the reversed list. -/

def ChainMiddlewares {R : Type} (final : R) (mws : List (R → R)) : R :=
  (mws.reverse).foldl (fun wrapped mw => mw wrapped) final

/-! ## Logging middleware embedding (src/gorest/middleware.go lines 98-185)

Bodies are modelled as `String` here, since only their textual content
reaches the log sink.  `httputil.DumpRequestOut` and
`httputil.DumpResponse` are standard-library collaborators passed in as
oracles: `dumpReqResult` is the outcome of dumping this call's request,
`dumpRespResult` the outcome of dumping a given response.  The log sink
(`logger io.Writer`) is modelled as the ordered list of strings written
to it. -/

/-- `LoggingConfig`: body-dump switches and an optional redactor
(`none` models a nil `Redactor` field, replaced by the identity). -/
structure LogConfig where
  dumpRequestBody : Bool
  dumpResponseBody : Bool
  redactor : Option (String → String)

/-- A response as seen by the logging middleware; `body = none` models a
nil `resp.Body`, `some (.error e)` a body whose `io.ReadAll` fails. -/
structure LogResponse where
  statusCode : Int
  headers : List (String × String)
  body : Option (Except String String)

/-- A request as seen by the logging middleware. -/
structure LogRequest where
  headers : List (String × String)
  body : Option (Except String String)

/-- Outcome of the inner executor for the logging middleware. -/
inductive LogExec where
  | err (msg : String)
  | ok (resp : LogResponse)

/-- Lines 100-110: a nil config gets the defaults (both bodies dumped,
identity redactor); a nil redactor is replaced by the identity. -/
def effectiveConfig (cfg : Option LogConfig) : LogConfig :=
  match cfg with
  | none => { dumpRequestBody := true, dumpResponseBody := true, redactor := none }
  | some c => c

def applyRedactor (r : Option (String → String)) (s : String) : String :=
  match r with
  | some f => f s
  | none => s

/-- The buffered response body after the read at lines 154-161: the
bytes on success, empty on a read error or a nil body. -/
def respBodyBytes (resp : LogResponse) : String :=
  match resp.body with
  | some (.ok s) => s
  | _ => ""

/-- The log lines produced by a failing response-body read (line 159). -/
def respBodyLogs (resp : LogResponse) : List String :=
  match resp.body with
  | some (.error e) => ["=== Response Dump Error: " ++ e ++ "\n"]
  | _ => []

/-- The response handed back to the caller: same status and headers,
body replaced by a fresh readable stream over the buffered bytes
(line 163); a nil body is left nil. -/
def resetResp (resp : LogResponse) : LogResponse :=
  match resp.body with
  | none => resp
  | some _ => { resp with body := some (.ok (respBodyBytes resp)) }

/-- The buffered request body after the read at lines 117-126. -/
def reqBodyBytes (req : LogRequest) : String :=
  match req.body with
  | some (.ok s) => s
  | _ => ""

/-- The log lines produced by a failing request-body read (line 121). -/
def reqBodyLogs (req : LogRequest) : List String :=
  match req.body with
  | some (.error e) => ["=== Request Dump Error: " ++ e ++ "\n"]
  | _ => []

/-- One run of the round-trip function produced by
`LoggingMiddlewareWithConfig(logger, config)(next)` on `req`
(lines 111-184).  Returns the call's result (`.ok` = response with nil
error, `.error` = nil response with the error) and the ordered list of
strings written to the logger. -/
def loggingRun (cfg : Option LogConfig) (dumpReqResult : Except String String)
    (dumpRespResult : LogResponse → Except String String)
    (next : LogExec) (req : LogRequest) :
    Except String LogResponse × List String :=
  let config := effectiveConfig cfg
  let red := applyRedactor config.redactor
  let log1 := reqBodyLogs req
  let log2 := match dumpReqResult with
    | .ok _ => []
    | .error e => ["=== Request Dump Error: " ++ e ++ "\n"]
  let reqDump := match dumpReqResult with
    | .ok d => d
    | .error _ => ""
  let outReq := "=== Request ===\n" ++ reqDump ++
    (if config.dumpRequestBody then "\nBody: " ++ reqBodyBytes req else "")
  let log3 := [red outReq]
  match next with
  | .err e =>
    (.error e, log1 ++ log2 ++ log3 ++ [red ("=== Request Error: " ++ e ++ "\n")])
  | .ok resp =>
    let log4 := respBodyLogs resp
    let resp2 := resetResp resp
    let log5 := match dumpRespResult resp2 with
      | .ok _ => []
      | .error e => ["=== Response Dump Error: " ++ e ++ "\n"]
    let respDump := match dumpRespResult resp2 with
      | .ok d => d
      | .error _ => ""
    let outResp := "=== Response ===\n" ++ respDump ++
      (if config.dumpResponseBody then "\nBody: " ++ respBodyBytes resp else "")
    (.ok resp2, log1 ++ log2 ++ log3 ++ log4 ++ log5 ++ [red outResp])

/-! ## `Response.StreamChunks` (src/gorest/request.go lines 215-243)

The response body is modelled with `bytes.Reader` semantics: each
`Read` into a buffer of size `b` returns the next `min b remaining`
bytes, and end-of-stream is reported once the data is exhausted.  The
`closed` flag of the handle records whether `Close` was ever called on
the body; `StreamChunks` never calls it. -/

/-- A response body handle: remaining stream data plus a closed flag. -/
structure BodyHandle where
  data : Bytes
  closed : Bool
deriving DecidableEq, Repr

/-- Successive chunks delivered by reading through a buffer of size
`b`, with explicit fuel bounding the number of reads; each non-final
read consumes at least one byte, so `data.length` fuel suffices. -/
def chunkBodyF (b : Nat) : Nat → Bytes → List Bytes
  | 0, _ => []
  | _ + 1, [] => []
  | fuel + 1, x :: xs => (x :: xs).take b :: chunkBodyF b fuel ((x :: xs).drop b)

/-- Successive chunks delivered by reading `data` through a buffer of
size `b` until end-of-stream. -/
def chunkBody (b : Nat) (data : Bytes) : List Bytes :=
  chunkBodyF b data.length data

/-- `StreamChunks(callback, bufSizes...)`: rejects more than one buffer
size, defaults the size to 4096 when absent or non-positive, then reads
the body chunk-by-chunk, invoking the callback with each non-empty
chunk.  The returned list is the ordered list of callback arguments;
the returned handle is the body after streaming (drained, not closed). -/
def StreamChunks (body : BodyHandle) (bufSizes : List Int) :
    Except String (List Bytes × BodyHandle) :=
  if bufSizes.length > 1 then
    .error ("only one optional buffer size value is allowed, got " ++
      toString bufSizes.length)
  else
    let bufSize : Int := match bufSizes with
      | [b] => if b ≤ 0 then 4096 else b
      | _ => 4096
    .ok (chunkBody bufSize.toNat body.data, { body with data := [] })

example :
    StreamChunks { data := [1, 2, 3, 4, 5, 6, 7], closed := false } [3] =
    .ok ([[1, 2, 3], [4, 5, 6], [7]], { data := [], closed := false }) := rfl

example :
    StreamChunks { data := [1, 2], closed := false } [3, 4] =
    .error "only one optional buffer size value is allowed, got 2" := rfl

/-! ## Asynchronous dispatch and join
(`DoAsync` / `DoGroupAsync` / `JoinAsyncResponses`,
src/gorest/client_test.go lines 529-537 and 568-591)

`DoAsync` launches one goroutine per call; the goroutine writes exactly
one `AsyncResponse` into a dedicated channel of capacity 1 and closes
it.  `JoinAsyncResponses` launches a joiner goroutine that receives
from the channels in input order and emits the collected slice once.
The embedding is a small-step transition system over the joint state of
the producer goroutines and the joiner: a schedule is any interleaving
of its steps, so theorems quantified over reachable states hold
regardless of completion order.  `p i` is the `AsyncResponse` produced
by input call `i` (for `DoGroupAsync`, the result of `c.Do` on request
`i`). -/

/-- Joint state: per-producer sent flags, the capacity-1 channel buffer
contents, the joiner's position and accumulated slice, and the output
channel contents. -/
structure JoinState (P : Type) where
  sent : Nat → Bool
  buf : Nat → Option P
  k : Nat
  acc : List P
  out : Option (List P)

/-- Initial state: nothing sent, all channels empty, joiner at index 0. -/
def joinInit (P : Type) : JoinState P :=
  { sent := fun _ => false, buf := fun _ => none, k := 0, acc := [], out := none }

/-- Producer `i` completes its call and writes its single result into
its capacity-1 channel (then closes it). -/
def taskSend {P : Type} (p : Nat → P) (i : Nat) (s : JoinState P) : JoinState P :=
  { s with
    sent := fun j => if j = i then true else s.sent j,
    buf := fun j => if j = i then some (p i) else s.buf j }

/-- One scheduler step of the fan-out/fan-in system with `n` producers
whose results are `p 0, …, p (n-1)`:
a producer may complete at any time (its buffered channel always has
room for its single send, so it never blocks on the receiver); the
joiner receives from channel `k` once a value is available, in input
order; after all `n` receives the joiner emits the collected slice. -/
inductive JoinStep {P : Type} (n : Nat) (p : Nat → P) :
    JoinState P → JoinState P → Prop
  | send (s : JoinState P) (i : Nat) (hi : i < n) (hs : s.sent i = false) :
      JoinStep n p s (taskSend p i s)
  | recv (s : JoinState P) (v : P) (hk : s.k < n) (hv : s.buf s.k = some v) :
      JoinStep n p s { s with acc := s.acc ++ [v], k := s.k + 1 }
  | emit (s : JoinState P) (hk : s.k = n) (ho : s.out = none) :
      JoinStep n p s { s with out := some s.acc }

/-- Invariant of the join system. -/
def JoinInv {P : Type} (n : Nat) (p : Nat → P) (s : JoinState P) : Prop :=
  s.k ≤ n ∧
  s.acc = (List.range s.k).map p ∧
  (∀ i, s.sent i = true → s.buf i = some (p i)) ∧
  (∀ i v, s.buf i = some v → s.sent i = true) ∧
  (∀ l, s.out = some l → l = (List.range n).map p)

theorem joinInv_init {P : Type} (n : Nat) (p : Nat → P) :
    JoinInv n p (joinInit P) := by
  refine ⟨Nat.zero_le n, by simp [joinInit], ?_, ?_, ?_⟩
  · intro i h; simp [joinInit] at h
  · intro i v h; simp [joinInit] at h
  · intro l h; simp [joinInit] at h

theorem joinInv_step {P : Type} {n : Nat} {p : Nat → P} {s t : JoinState P}
    (hinv : JoinInv n p s) (hstep : JoinStep n p s t) : JoinInv n p t := by
  obtain ⟨hk, hacc, hsent, hbuf, hout⟩ := hinv
  cases hstep with
  | send i hi hs =>
    refine ⟨hk, hacc, ?_, ?_, hout⟩
    · intro j hj
      by_cases hji : j = i
      · subst hji; simp [taskSend]
      · simp [taskSend, hji] at hj ⊢
        exact hsent j hj
    · intro j v hj
      by_cases hji : j = i
      · subst hji; simp [taskSend]
      · simp [taskSend, hji] at hj ⊢
        exact hbuf j v hj
  | recv v hkn hv =>
    have hvp : v = p s.k := by
      have hb := hsent s.k (hbuf s.k v hv)
      rw [hb] at hv
      exact (Option.some_injective P hv).symm
    refine ⟨hkn, ?_, hsent, hbuf, hout⟩
    simp only [List.range_succ, List.map_append, List.map_cons, List.map_nil]
    rw [hacc, hvp]
  | emit hkn ho =>
    refine ⟨hk, hacc, hsent, hbuf, ?_⟩
    intro l hl
    simp only [Option.some_inj] at hl
    rw [← hl, hacc, hkn]

theorem joinInv_reachable {P : Type} {n : Nat} {p : Nat → P} {s : JoinState P}
    (h : Relation.ReflTransGen (JoinStep n p) (joinInit P) s) :
    JoinInv n p s := by
  induction h with
  | refl => exact joinInv_init n p
  | tail _ hstep ih => exact joinInv_step ih hstep

/-- Progress: as long as the output has not been delivered, some step of
the system is enabled — a producer can complete, the joiner can receive
the next result, or the joiner can emit. -/
theorem joinStep_progress {P : Type} {n : Nat} {p : Nat → P} {s : JoinState P}
    (hinv : JoinInv n p s) (ho : s.out = none) :
    ∃ t, JoinStep n p s t := by
  obtain ⟨hk, _, hsent, _, _⟩ := hinv
  by_cases hall : ∃ i, i < n ∧ s.sent i = false
  · obtain ⟨i, hi, hs⟩ := hall
    exact ⟨taskSend p i s, .send s i hi hs⟩
  · push_neg at hall
    by_cases hkn : s.k < n
    · have hsk : s.sent s.k = true := by
        have hne := hall s.k hkn
        simp only [ne_eq, Bool.not_eq_false] at hne
        exact hne
      exact ⟨_, .recv s (p s.k) hkn (hsent s.k hsk)⟩
    · have hkeq : s.k = n := by omega
      exact ⟨_, .emit s hkeq ho⟩

/-! ### Characterisation of `Atoi` on integer-shaped strings -/

theorem atoi_digits (ds : List Char) (hne : ds ≠ [])
    (hdig : ∀ c ∈ ds, c.isDigit) (hrange : (decValue ds : Int) ≤ int64Max) :
    Atoi (String.mk ds) = some ((decValue ds : Int)) := by
  cases ds with
  | nil => exact absurd rfl hne
  | cons c rest =>
    have hc : c.isDigit := hdig c (List.mem_cons_self c rest)
    have hplus : c ≠ '+' := by
      intro h; rw [h] at hc; exact absurd hc (by decide)
    have hminus : c ≠ '-' := by
      intro h; rw [h] at hc; exact absurd hc (by decide)
    have hlist : (String.mk (c :: rest)).toList = c :: rest := rfl
    have hds : atoiDigits (c :: rest) = c :: rest := by
      unfold atoiDigits
      rw [if_neg]
      intro h
      rcases h with h | h
      · exact hplus (Option.some_inj.mp h)
      · exact hminus (Option.some_inj.mp h)
    have hsgn : atoiSign (c :: rest) = 1 := by
      unfold atoiSign
      rw [if_neg]
      intro h
      exact hminus (Option.some_inj.mp h)
    unfold Atoi
    rw [hlist, hds, hsgn]
    have hemp : (c :: rest).isEmpty = false := rfl
    rw [hemp]
    have hall : (c :: rest).all (fun c => c.isDigit) = true := by
      rw [List.all_eq_true]
      exact hdig
    simp only [Bool.false_eq_true, if_false, hall, if_true]
    have hnonneg : (0 : Int) ≤ (decValue (c :: rest) : Int) := Int.natCast_nonneg _
    have hlow : int64Min ≤ 1 * (decValue (c :: rest) : Int) := by
      unfold int64Min
      omega
    have hhigh : 1 * (decValue (c :: rest) : Int) ≤ int64Max := by
      omega
    rw [if_pos ⟨hlow, hhigh⟩, one_mul]

theorem atoi_neg_digits (ds : List Char) (hne : ds ≠ [])
    (hdig : ∀ c ∈ ds, c.isDigit)
    (hrange : (decValue ds : Int) ≤ 9223372036854775808) :
    Atoi (String.mk ('-' :: ds)) = some (-(decValue ds : Int)) := by
  have hlist : (String.mk ('-' :: ds)).toList = '-' :: ds := rfl
  have hds : atoiDigits ('-' :: ds) = ds := by
    unfold atoiDigits
    rw [if_pos]
    · rfl
    · right; rfl
  have hsgn : atoiSign ('-' :: ds) = -1 := by
    unfold atoiSign
    have hcond : ('-' :: ds).head? = some '-' := rfl
    rw [if_pos hcond]
  unfold Atoi
  rw [hlist, hds, hsgn]
  have hemp : ds.isEmpty = false := by
    cases ds with
    | nil => exact absurd rfl hne
    | cons c rest => rfl
  rw [hemp]
  have hall : ds.all (fun c => c.isDigit) = true := by
    rw [List.all_eq_true]
    exact hdig
  simp only [Bool.false_eq_true, if_false, hall, if_true]
  have hnonneg : (0 : Int) ≤ (decValue ds : Int) := Int.natCast_nonneg _
  have hlow : int64Min ≤ -1 * (decValue ds : Int) := by
    unfold int64Min
    omega
  have hhigh : -1 * (decValue ds : Int) ≤ int64Max := by
    unfold int64Max
    omega
  rw [if_pos ⟨hlow, hhigh⟩, neg_one_mul]

/-! ## Chunking lemmas for `StreamChunks` -/

theorem chunkBodyF_join (b : Nat) (hb : 0 < b) :
    ∀ fuel data, data.length ≤ fuel → (chunkBodyF b fuel data).flatten = data := by
  intro fuel
  induction fuel with
  | zero =>
    intro data h
    have : data = [] := List.eq_nil_of_length_eq_zero (by omega)
    rw [this]
    rfl
  | succ fuel ih =>
    intro data h
    cases data with
    | nil => rfl
    | cons x xs =>
      rw [chunkBodyF, List.flatten_cons]
      rw [ih ((x :: xs).drop b) (by
        simp only [List.length_drop, List.length_cons]
        simp only [List.length_cons] at h
        omega)]
      exact List.take_append_drop b (x :: xs)

theorem chunkBodyF_mem (b : Nat) (hb : 0 < b) :
    ∀ fuel data c, c ∈ chunkBodyF b fuel data → c ≠ [] ∧ c.length ≤ b := by
  intro fuel
  induction fuel with
  | zero => intro data c hc; simp [chunkBodyF] at hc
  | succ fuel ih =>
    intro data c hc
    cases data with
    | nil => simp [chunkBodyF] at hc
    | cons x xs =>
      rw [chunkBodyF] at hc
      rcases List.mem_cons.mp hc with h | h
      · subst h
        constructor
        · have hlen : ((x :: xs).take b).length = min b (x :: xs).length := by
            simp [List.length_take]
          intro hnil
          rw [hnil] at hlen
          simp at hlen
          omega
        · simp [List.length_take]
      · exact ih ((x :: xs).drop b) c h

/-! ## Claim theorems -/

/-- Claim C3, counterexample: contrary to the claim that every
non-integer, non-date input — including a negative integer string —
yields the "invalid Retry-After header" error, `ParseRetryAfter "-5"`
succeeds with a negative duration of −5 seconds, because
`strconv.Atoi` accepts a leading minus sign. -/
theorem c3_negative_integer_counterexample :
    ParseRetryAfter (fun _ => none) 0 "-5" none = .ok (-5000000000) ∧
    ParseRetryAfter (fun _ => none) 0 "-5" none ≠
      .error "invalid Retry-After header: -5" := by
  constructor
  · rfl
  · intro h
    rw [show ParseRetryAfter (fun _ => none) 0 "-5" none =
      Except.ok (-5000000000) from rfl] at h
    exact Except.noConfusion h

/-- Claim C3 (amended): `ParseRetryAfter` accepts any integer string
within the signed 64-bit range — including negative ones, returned as
that many (possibly negative) seconds, with the seconds-to-duration
conversion wrapping on 64-bit overflow — and HTTP-date strings,
returned as the deadline minus the baseline (or wall clock), saturated
to the 64-bit range and clamped to zero when the deadline is past;
every other input yields an error whose message is
"invalid Retry-After header: " followed by the offending value. -/
theorem c3_parse_retry_after_amended (pt : String → Option Int)
    (wallNow : Int) (baseline : Option Int) :
    (∀ ds : List Char, ds ≠ [] → (∀ c ∈ ds, c.isDigit) →
      (decValue ds : Int) ≤ int64Max →
      ParseRetryAfter pt wallNow (String.mk ds) baseline =
        .ok (wrap64 ((decValue ds : Int) * 1000000000))) ∧
    (∀ ds : List Char, ds ≠ [] → (∀ c ∈ ds, c.isDigit) →
      (decValue ds : Int) ≤ 9223372036854775808 →
      ParseRetryAfter pt wallNow (String.mk ('-' :: ds)) baseline =
        .ok (wrap64 (-(decValue ds : Int) * 1000000000))) ∧
    (∀ header t, Atoi header = none → pt header = some t →
      ParseRetryAfter pt wallNow header baseline =
        .ok (max (sat64 (t - baseline.getD wallNow)) 0)) ∧
    (∀ header, Atoi header = none → pt header = none →
      ParseRetryAfter pt wallNow header baseline =
        .error ("invalid Retry-After header: " ++ header)) := by
  refine ⟨?_, ?_, ?_, ?_⟩
  · intro ds hne hdig hrange
    simp only [ParseRetryAfter, atoi_digits ds hne hdig hrange]
  · intro ds hne hdig hrange
    simp only [ParseRetryAfter, atoi_neg_digits ds hne hdig hrange, neg_mul]
  · intro header t hatoi hpt
    simp only [ParseRetryAfter, hatoi, hpt]
    cases baseline with
    | none =>
      simp only [Option.getD]
      by_cases hd : sat64 (t - wallNow) < 0
      · rw [if_pos hd, max_eq_right (le_of_lt hd)]
      · rw [if_neg hd, max_eq_left (not_lt.mp hd)]
    | some bl =>
      simp only [Option.getD]
      by_cases hd : sat64 (t - bl) < 0
      · rw [if_pos hd, max_eq_right (le_of_lt hd)]
      · rw [if_neg hd, max_eq_left (not_lt.mp hd)]
  · intro header hatoi hpt
    simp only [ParseRetryAfter, hatoi, hpt]

theorem c3_parse_retry_after_amended_witness :
    ParseRetryAfter (fun _ => none) 0 (String.mk ['-', '5']) none =
      .ok (wrap64 (-(decValue ['5'] : Int) * 1000000000)) :=
  (c3_parse_retry_after_amended (fun _ => none) 0 none).2.1 ['5']
    (by decide) (by decide) (by decide)

/-- Claim C6: `ChainMiddlewares` composes outside-in by argument order —
it equals the right fold nesting the first middleware outermost and the
last adjacent to the terminal — returns the terminal unchanged on the
empty list, and satisfies the cons-unfolding that makes the head
middleware the outermost wrapper. -/
theorem c6_chain_middlewares {R : Type} (final : R) (mws : List (R → R)) :
    ChainMiddlewares final mws = mws.foldr (fun mw acc => mw acc) final ∧
    ChainMiddlewares final ([] : List (R → R)) = final ∧
    ∀ mw : R → R,
      ChainMiddlewares final (mw :: mws) = mw (ChainMiddlewares final mws) := by
  have hfold : ∀ l : List (R → R),
      ChainMiddlewares final l = l.foldr (fun mw acc => mw acc) final := by
    intro l
    unfold ChainMiddlewares
    rw [List.foldl_reverse]
  exact ⟨hfold mws, hfold [], fun mw => by
    rw [hfold (mw :: mws), hfold mws, List.foldr_cons]⟩

/-- Claim C9: for every body and single positive buffer size `b`,
`StreamChunks` yields non-empty chunks of at most `b` bytes whose
concatenation in order is exactly the original body, succeeds at
end-of-stream leaving the body's closed flag untouched (it never calls
Close), uses 4096 when no buffer size is given, and rejects more than
one buffer-size argument as a usage error. -/
theorem c9_stream_chunks (data : Bytes) (closed : Bool) :
    (∀ b : Int, 0 < b →
      StreamChunks ⟨data, closed⟩ [b] =
          .ok (chunkBody b.toNat data, ⟨[], closed⟩) ∧
        (∀ c ∈ chunkBody b.toNat data, c ≠ [] ∧ c.length ≤ b.toNat) ∧
        (chunkBody b.toNat data).flatten = data) ∧
    StreamChunks ⟨data, closed⟩ [] =
      .ok (chunkBody 4096 data, ⟨[], closed⟩) ∧
    (∀ b1 b2 : Int, ∀ rest : List Int,
      StreamChunks ⟨data, closed⟩ (b1 :: b2 :: rest) =
        .error ("only one optional buffer size value is allowed, got " ++
          toString (rest.length + 2))) := by
  refine ⟨?_, ?_, ?_⟩
  · intro b hb
    have hbn : 0 < b.toNat := by omega
    refine ⟨?_, ?_, ?_⟩
    · unfold StreamChunks
      rw [if_neg (by simp)]
      simp only [if_neg (not_le.mpr hb)]
    · intro c hc
      exact chunkBodyF_mem b.toNat hbn data.length data c hc
    · exact chunkBodyF_join b.toNat hbn data.length data (Nat.le_refl _)
  · rfl
  · intro b1 b2 rest
    unfold StreamChunks
    rw [if_pos (by simp)]
    rfl

theorem c9_stream_chunks_witness :
    StreamChunks ⟨[1, 2, 3], false⟩ [2] =
        .ok (chunkBody (Int.toNat 2) [1, 2, 3], ⟨[], false⟩) ∧
      (chunkBody (Int.toNat 2) [1, 2, 3]).flatten = [1, 2, 3] :=
  ⟨((c9_stream_chunks [1, 2, 3] false).1 2 (by decide)).1,
   ((c9_stream_chunks [1, 2, 3] false).1 2 (by decide)).2.2⟩

/-- Claim C1: with `maxAttempts = N ≥ 1`, a live context and a readable
(or absent) request body, an inner executor failing with a transport
error on every invocation is invoked exactly `N` times and the
middleware returns a nil response (`RetryResult.err`) wrapping the last
transport error; an inner executor producing a retryable status (429
with parseable Retry-After, or ≥ 500) on every invocation is likewise
invoked exactly `N` times and the middleware returns a nil response
with an error reporting the last such status code. -/
theorem c1_retry_until_exhaustion (N retryDelay : Int)
    (pt : String → Option Int) (now : Int) (next : Nat → ExecOutcome)
    (req : HttpRequest) (hN : 1 ≤ N) (hctx : req.ctxCancelFrom = none)
    (hbody : req.body = none ∨ ∃ bs, req.body = some (.ok bs)) :
    (∀ m : Nat → String,
      (∀ i, i < N.toNat → next i = .transportErr (m i)) →
      (retryRun N retryDelay pt now next req).1 =
          .err ("all retry attempts failed: " ++ m (N.toNat - 1)) ∧
        countInvokes (retryRun N retryDelay pt now next req).2 = N.toNat) ∧
    (∀ r : Nat → HttpResponse,
      (∀ i, i < N.toNat →
        (∃ d, classifyOutcome pt now (next i) = .retryAfter429 (r i) d) ∨
          classifyOutcome pt now (next i) = .retry5xx (r i)) →
      (retryRun N retryDelay pt now next req).1 =
          .err ("all retry attempts exhausted, last status: " ++
            toString (r (N.toNat - 1)).statusCode) ∧
        countInvokes (retryRun N retryDelay pt now next req).2 = N.toNat) := by
  obtain ⟨n, hn⟩ : ∃ n, N.toNat = n + 1 := ⟨N.toNat - 1, by omega⟩
  constructor
  · intro m hm
    rcases hbody with hb | ⟨bs, hb⟩
    · have hmain := retryLoop_all_errors
        ⟨next, retryDelay, pt, now, req.headers, req.ctxCancelFrom, none⟩ m hctx
        n 0 none none (fun j _ hj => hm j (by omega))
      simp only [retryRun, hb, hn]
      constructor
      · rw [hmain.1]
        have h2 : (0 : Nat) + n = n + 1 - 1 := by omega
        rw [h2]
      · rw [hmain.2]
    · have hmain := retryLoop_all_errors
        ⟨next, retryDelay, pt, now, req.headers, req.ctxCancelFrom, some bs⟩ m hctx
        n 0 none none (fun j _ hj => hm j (by omega))
      simp only [retryRun, hb, hn]
      constructor
      · rw [hmain.1]
        have h2 : (0 : Nat) + n = n + 1 - 1 := by omega
        rw [h2]
      · rw [countInvokes_cons_other _ _ (by intro a b h; cases h), hmain.2]
  · intro r hr
    rcases hbody with hb | ⟨bs, hb⟩
    · have hmain := retryLoop_all_retryable
        ⟨next, retryDelay, pt, now, req.headers, req.ctxCancelFrom, none⟩ r hctx
        n 0 none none (fun j _ hj => hr j (by omega))
      simp only [retryRun, hb, hn]
      constructor
      · rw [hmain.1]
        have h2 : (0 : Nat) + n = n + 1 - 1 := by omega
        rw [h2]
      · rw [hmain.2]
    · have hmain := retryLoop_all_retryable
        ⟨next, retryDelay, pt, now, req.headers, req.ctxCancelFrom, some bs⟩ r hctx
        n 0 none none (fun j _ hj => hr j (by omega))
      simp only [retryRun, hb, hn]
      constructor
      · rw [hmain.1]
        have h2 : (0 : Nat) + n = n + 1 - 1 := by omega
        rw [h2]
      · rw [countInvokes_cons_other _ _ (by intro a b h; cases h), hmain.2]

theorem c1_retry_until_exhaustion_witness :
    (retryRun 2 7 (fun _ => none) 0
        (fun i => .transportErr (if i = 0 then "a" else "b"))
        { headers := [], body := none, ctxCancelFrom := none }).1 =
      .err "all retry attempts failed: b" := by
  have h := (c1_retry_until_exhaustion 2 7 (fun _ => none) 0
      (fun i => .transportErr (if i = 0 then "a" else "b"))
      { headers := [], body := none, ctxCancelFrom := none }
      (by decide) rfl (Or.inl rfl)).1
      (fun i => if i = 0 then "a" else "b") (fun i _ => rfl)
  exact h.1

/-- Claim C2: classification of one attempt outcome inside the retry
loop.  When the inner executor returns a response at attempt `i` and
the context check passed: a 429 with a present, parseable Retry-After
header leads to a drain-and-close, a sleep of the parsed delay, and the
loop continuing into the next attempt; a 429 with an absent or
unparseable Retry-After header is returned immediately with nil error;
a status of at least 500 leads to a drain-and-close, a sleep of the
configured delay, and the loop continuing; every other status is
returned immediately with nil error. -/
theorem c2_attempt_classification (c : RetryCtx) (rem i : Nat)
    (lastResp : Option HttpResponse) (lastErr : Option String)
    (resp : HttpResponse) (hnext : c.next i = .ok resp)
    (hctx : ctxErrAt c.ctxCancelFrom i = none) :
    (∀ d : Int, resp.statusCode = 429 →
      headerGet resp.headers "Retry-After" ≠ "" →
      ParseRetryAfter c.pt c.now (headerGet resp.headers "Retry-After")
        (some c.now) = .ok d →
      retryLoop c (rem + 1) i lastResp lastErr =
        ((retryLoop c rem (i + 1) (some resp) none).1,
          preSleep i c.retryDelay ++ Event.invoke i (mkAttempt c) ::
            Event.drainClose resp.statusCode :: Event.sleep d ::
            (retryLoop c rem (i + 1) (some resp) none).2)) ∧
    (resp.statusCode = 429 →
      (headerGet resp.headers "Retry-After" = "" ∨
        ∃ msg, ParseRetryAfter c.pt c.now (headerGet resp.headers "Retry-After")
          (some c.now) = .error msg) →
      retryLoop c (rem + 1) i lastResp lastErr =
        (.ok resp, preSleep i c.retryDelay ++ [Event.invoke i (mkAttempt c)])) ∧
    (500 ≤ resp.statusCode →
      retryLoop c (rem + 1) i lastResp lastErr =
        ((retryLoop c rem (i + 1) (some resp) none).1,
          preSleep i c.retryDelay ++ Event.invoke i (mkAttempt c) ::
            Event.drainClose resp.statusCode :: Event.sleep c.retryDelay ::
            (retryLoop c rem (i + 1) (some resp) none).2)) ∧
    (resp.statusCode ≠ 429 → resp.statusCode < 500 →
      retryLoop c (rem + 1) i lastResp lastErr =
        (.ok resp, preSleep i c.retryDelay ++ [Event.invoke i (mkAttempt c)])) := by
  refine ⟨?_, ?_, ?_, ?_⟩
  · intro d h429 hra hparse
    have hcl : classifyOutcome c.pt c.now (c.next i) = .retryAfter429 resp d := by
      rw [hnext]
      simp only [classifyOutcome]
      rw [if_pos h429, if_pos hra, hparse]
    rw [retryLoop, hctx, hcl]
  · intro h429 hra
    have hcl : classifyOutcome c.pt c.now (c.next i) = .final resp := by
      rw [hnext]
      simp only [classifyOutcome]
      rw [if_pos h429]
      by_cases hempty : headerGet resp.headers "Retry-After" = ""
      · rw [if_neg (by simp [hempty])]
      · rw [if_pos hempty]
        rcases hra with h | ⟨msg, hmsg⟩
        · exact absurd h hempty
        · rw [hmsg]
    rw [retryLoop, hctx, hcl]
  · intro h500
    have hcl : classifyOutcome c.pt c.now (c.next i) = .retry5xx resp := by
      rw [hnext]
      simp only [classifyOutcome]
      rw [if_neg (show ¬resp.statusCode = 429 by omega), if_pos h500]
    rw [retryLoop, hctx, hcl]
  · intro h429 h500
    have hcl : classifyOutcome c.pt c.now (c.next i) = .final resp := by
      rw [hnext]
      simp only [classifyOutcome]
      rw [if_neg h429, if_neg (show ¬(500 : Int) ≤ resp.statusCode by omega)]
    rw [retryLoop, hctx, hcl]

theorem c2_attempt_classification_witness :
    retryLoop ⟨fun _ => .ok ⟨200, [], []⟩, 7, fun _ => none, 0, [], none, none⟩
        1 0 none none =
      (.ok ⟨200, [], []⟩,
        preSleep 0 7 ++
          [Event.invoke 0
            (mkAttempt ⟨fun _ => .ok ⟨200, [], []⟩, 7, fun _ => none, 0, [],
              none, none⟩)]) :=
  (c2_attempt_classification
      ⟨fun _ => .ok ⟨200, [], []⟩, 7, fun _ => none, 0, [], none, none⟩
      0 0 none none ⟨200, [], []⟩ rfl rfl).2.2.2 (by decide) (by decide)

/-- Claim C4: when the request carries a body, the middleware reads it
exactly once, before the first attempt (the single `bodyRead` event
heads the trace and never recurs), and every inner-executor invocation
receives a cloned request with the original header map and a fresh
stream over the same buffered bytes; if the up-front read fails, the
middleware returns that read error with nil response and the inner
executor is invoked zero times. -/
theorem c4_body_buffering (attempts retryDelay : Int)
    (pt : String → Option Int) (now : Int) (next : Nat → ExecOutcome)
    (hdrs : List (String × String)) (cf : Option Nat) :
    (∀ e : String,
      retryRun attempts retryDelay pt now next
        { headers := hdrs, body := some (.error e), ctxCancelFrom := cf } =
        (.err e, [Event.bodyRead])) ∧
    (∀ bs : Bytes, ∃ rest : List Event,
      (retryRun attempts retryDelay pt now next
          { headers := hdrs, body := some (.ok bs), ctxCancelFrom := cf }).2 =
          Event.bodyRead :: rest ∧
        Event.bodyRead ∉ rest ∧
        ∀ j r, Event.invoke j r ∈ rest →
          r = { headers := hdrs, body := some bs }) := by
  constructor
  · intro e
    rfl
  · intro bs
    refine ⟨(retryLoop ⟨next, retryDelay, pt, now, hdrs, cf, some bs⟩
      attempts.toNat 0 none none).2, rfl, ?_, ?_⟩
    · intro hmem
      rcases retryLoop_trace_shape ⟨next, retryDelay, pt, now, hdrs, cf, some bs⟩
          attempts.toNat 0 none none Event.bodyRead hmem with
        ⟨d, h⟩ | ⟨st, h⟩ | ⟨j, h, _, _⟩
      · exact Event.noConfusion h
      · exact Event.noConfusion h
      · exact Event.noConfusion h
    · intro j r hmem
      rcases retryLoop_trace_shape ⟨next, retryDelay, pt, now, hdrs, cf, some bs⟩
          attempts.toNat 0 none none (Event.invoke j r) hmem with
        ⟨d, h⟩ | ⟨st, h⟩ | ⟨j2, h, _, _⟩
      · exact Event.noConfusion h
      · exact Event.noConfusion h
      · injection h with h1 h2

theorem c4_body_buffering_witness :
    retryRun 1 7 (fun _ => none) 0 (fun _ => .ok ⟨200, [], []⟩)
      { headers := [], body := some (.error "read error"), ctxCancelFrom := none } =
      (.err "read error", [Event.bodyRead]) :=
  (c4_body_buffering 1 7 (fun _ => none) 0 (fun _ => .ok ⟨200, [], []⟩)
    [] none).1 "read error"

/-- Claim C5: when the request's context reports cancellation from
check `k` onwards, the inner executor is never invoked at or after
attempt `k`; in particular a context already cancelled before dispatch
(`k = 0`) yields the cancellation error immediately with nil response,
zero inner invocations and no sleep; and whenever check `k` is actually
reached (all earlier attempts continued and `k` is within the attempt
budget), the middleware returns the cancellation error with exactly `k`
inner invocations. -/
theorem c5_cancellation (attempts retryDelay : Int)
    (pt : String → Option Int) (now : Int) (next : Nat → ExecOutcome)
    (hdrs : List (String × String)) (body : Option (Except String Bytes))
    (k : Nat) (hbody : body = none ∨ ∃ bs, body = some (.ok bs)) :
    (∀ j r, Event.invoke j r ∈ (retryRun attempts retryDelay pt now next
        { headers := hdrs, body := body, ctxCancelFrom := some k }).2 →
      j < k) ∧
    (k = 0 → 1 ≤ attempts →
      (retryRun attempts retryDelay pt now next
          { headers := hdrs, body := body, ctxCancelFrom := some k }).1 =
          .err "context canceled" ∧
        ∀ e ∈ (retryRun attempts retryDelay pt now next
          { headers := hdrs, body := body, ctxCancelFrom := some k }).2,
          e = Event.bodyRead) ∧
    (k < attempts.toNat →
      (∀ j, j < k → isFinalStep (classifyOutcome pt now (next j)) = false) →
      (retryRun attempts retryDelay pt now next
          { headers := hdrs, body := body, ctxCancelFrom := some k }).1 =
          .err "context canceled" ∧
        countInvokes (retryRun attempts retryDelay pt now next
          { headers := hdrs, body := body, ctxCancelFrom := some k }).2 = k) := by
  have hinv : ∀ bb : Option Bytes, ∀ j r,
      Event.invoke j r ∈ (retryLoop ⟨next, retryDelay, pt, now, hdrs, some k, bb⟩
        attempts.toNat 0 none none).2 → j < k := by
    intro bb j r hmem
    rcases retryLoop_trace_shape ⟨next, retryDelay, pt, now, hdrs, some k, bb⟩
        attempts.toNat 0 none none (Event.invoke j r) hmem with
      ⟨d, h⟩ | ⟨st, h⟩ | ⟨j2, h, hij, hcj⟩
    · exact Event.noConfusion h
    · exact Event.noConfusion h
    · injection h with h1 h2
      subst h1
      have hcj2 : ctxErrAt (some k) j = none := hcj
      by_cases hkj : k ≤ j
      · simp only [ctxErrAt, if_pos hkj] at hcj2
        exact Option.noConfusion hcj2
      · omega
  have hcancel : ∀ bb : Option Bytes, k = 0 → 1 ≤ attempts →
      retryLoop ⟨next, retryDelay, pt, now, hdrs, some k, bb⟩
        attempts.toNat 0 none none = (.err "context canceled", []) := by
    intro bb hk hN
    obtain ⟨n, hn⟩ : ∃ n, attempts.toNat = n + 1 := ⟨attempts.toNat - 1, by omega⟩
    rw [hn, retryLoop]
    subst hk
    rfl
  have hreach : ∀ bb : Option Bytes, k < attempts.toNat →
      (∀ j, j < k → isFinalStep (classifyOutcome pt now (next j)) = false) →
      (retryLoop ⟨next, retryDelay, pt, now, hdrs, some k, bb⟩
          attempts.toNat 0 none none).1 = .err "context canceled" ∧
        countInvokes (retryLoop ⟨next, retryDelay, pt, now, hdrs, some k, bb⟩
          attempts.toNat 0 none none).2 = k := by
    intro bb hk hcont
    exact retryLoop_cancelled ⟨next, retryDelay, pt, now, hdrs, some k, bb⟩
      k rfl hcont attempts.toNat 0 none none (Nat.zero_le k) (by omega)
  rcases hbody with hb | ⟨bs, hb⟩ <;> subst hb
  · exact ⟨hinv none, fun hk hN => by
      rw [show (retryRun attempts retryDelay pt now next
          { headers := hdrs, body := none, ctxCancelFrom := some k }) =
        retryLoop ⟨next, retryDelay, pt, now, hdrs, some k, none⟩
          attempts.toNat 0 none none from rfl, hcancel none hk hN]
      exact ⟨rfl, by intro e he; simp at he⟩,
      fun hk hcont => hreach none hk hcont⟩
  · refine ⟨?_, fun hk hN => ?_, fun hk hcont => ?_⟩
    · intro j r hmem
      have hmem2 : Event.invoke j r ∈ Event.bodyRead ::
          (retryLoop ⟨next, retryDelay, pt, now, hdrs, some k, some bs⟩
            attempts.toNat 0 none none).2 := hmem
      rcases List.mem_cons.mp hmem2 with h | h
      · exact Event.noConfusion h
      · exact hinv (some bs) j r h
    · constructor
      · show (retryLoop ⟨next, retryDelay, pt, now, hdrs, some k, some bs⟩
            attempts.toNat 0 none none).1 = .err "context canceled"
        rw [hcancel (some bs) hk hN]
      · intro e he
        have he2 : e ∈ Event.bodyRead ::
            (retryLoop ⟨next, retryDelay, pt, now, hdrs, some k, some bs⟩
              attempts.toNat 0 none none).2 := he
        rw [hcancel (some bs) hk hN] at he2
        simpa using he2
    · constructor
      · exact (hreach (some bs) hk hcont).1
      · show countInvokes (Event.bodyRead ::
            (retryLoop ⟨next, retryDelay, pt, now, hdrs, some k, some bs⟩
              attempts.toNat 0 none none).2) = k
        rw [countInvokes_cons_other _ _ (by intro a b h; cases h),
          (hreach (some bs) hk hcont).2]

theorem c5_cancellation_witness :
    (retryRun 3 7 (fun _ => none) 0 (fun _ => .ok ⟨200, [], []⟩)
        { headers := [], body := none, ctxCancelFrom := some 0 }).1 =
      .err "context canceled" :=
  ((c5_cancellation 3 7 (fun _ => none) 0 (fun _ => .ok ⟨200, [], []⟩)
    [] none 0 (Or.inl rfl)).2.1 rfl (by decide)).1

/-- Claim C10: the post-loop exhaustion branch that reads the last
response's status code is safe for every `attempts ≥ 1` — the run never
produces the nil-pointer panic; but for `attempts ≤ 0`, on a request
with no body and a non-cancelled context, the loop never runs, the
inner executor is invoked zero times (empty trace), and the middleware
dereferences a nil response while building the "all retry attempts
exhausted" error — a nil-pointer panic instead of an error value. -/
theorem c10_exhaustion_nil_deref (attempts retryDelay : Int)
    (pt : String → Option Int) (now : Int) (next : Nat → ExecOutcome)
    (hdrs : List (String × String)) :
    (∀ req : HttpRequest, 1 ≤ attempts →
      (retryRun attempts retryDelay pt now next req).1 ≠ .nilPanic) ∧
    (attempts ≤ 0 →
      retryRun attempts retryDelay pt now next
        { headers := hdrs, body := none, ctxCancelFrom := none } =
        (.nilPanic, [])) := by
  constructor
  · intro req hN
    have hne : attempts.toNat ≠ 0 := by omega
    cases hb : req.body with
    | none =>
      simp only [retryRun, hb]
      exact retryLoop_no_panic _ attempts.toNat 0 none none
        (fun h0 => absurd h0 hne)
    | some v =>
      cases v with
      | error e =>
        simp only [retryRun, hb]
        intro h
        exact RetryResult.noConfusion h
      | ok bs =>
        simp only [retryRun, hb]
        exact retryLoop_no_panic _ attempts.toNat 0 none none
          (fun h0 => absurd h0 hne)
  · intro hle
    have h0 : attempts.toNat = 0 := by omega
    show retryLoop ⟨next, retryDelay, pt, now, hdrs, none, none⟩
      attempts.toNat 0 none none = (.nilPanic, [])
    rw [h0]
    rfl

theorem c10_exhaustion_nil_deref_witness :
    retryRun 0 7 (fun _ => none) 0 (fun _ => .ok ⟨200, [], []⟩)
      { headers := [], body := none, ctxCancelFrom := none } =
      (.nilPanic, []) :=
  (c10_exhaustion_nil_deref 0 7 (fun _ => none) 0 (fun _ => .ok ⟨200, [], []⟩)
    []).2 (by decide)

/-- Claim C7: in the logging middleware, a transport-level error from
the inner executor is written to the sink with the
"=== Request Error:" marker and then returned to the caller unchanged,
whereas a failure to dump the response — whether the dump itself fails
or the response-body read feeding it fails — is written with the
"=== Response Dump Error:" marker and swallowed: the call still returns
the (body-rebuffered) response with nil error, and its status code and
headers reach the caller unmutated. -/
theorem c7_logging_errors (cfg : Option LogConfig)
    (dumpReqResult : Except String String)
    (dumpRespResult : LogResponse → Except String String) (req : LogRequest) :
    (∀ m : String,
      (loggingRun cfg dumpReqResult dumpRespResult (.err m) req).1 = .error m ∧
      applyRedactor (effectiveConfig cfg).redactor
          ("=== Request Error: " ++ m ++ "\n") ∈
        (loggingRun cfg dumpReqResult dumpRespResult (.err m) req).2) ∧
    (∀ resp e, dumpRespResult (resetResp resp) = .error e →
      (loggingRun cfg dumpReqResult dumpRespResult (.ok resp) req).1 =
          .ok (resetResp resp) ∧
        (resetResp resp).statusCode = resp.statusCode ∧
        (resetResp resp).headers = resp.headers ∧
        ("=== Response Dump Error: " ++ e ++ "\n") ∈
          (loggingRun cfg dumpReqResult dumpRespResult (.ok resp) req).2) ∧
    (∀ resp e, resp.body = some (.error e) →
      (loggingRun cfg dumpReqResult dumpRespResult (.ok resp) req).1 =
          .ok (resetResp resp) ∧
        ("=== Response Dump Error: " ++ e ++ "\n") ∈
          (loggingRun cfg dumpReqResult dumpRespResult (.ok resp) req).2) := by
  refine ⟨?_, ?_, ?_⟩
  · intro m
    refine ⟨rfl, ?_⟩
    simp [loggingRun]
  · intro resp e hdump
    refine ⟨rfl, ?_, ?_, ?_⟩
    · unfold resetResp
      cases resp.body <;> rfl
    · unfold resetResp
      cases resp.body <;> rfl
    · simp [loggingRun, hdump]
  · intro resp e hbody
    refine ⟨rfl, ?_⟩
    simp [loggingRun, respBodyLogs, hbody]

theorem c7_logging_errors_witness :
    (loggingRun none (.ok "D") (fun _ => .error "boom")
        (.ok ⟨200, [], some (.ok "body")⟩) ⟨[], none⟩).1 =
        .ok (resetResp ⟨200, [], some (.ok "body")⟩) ∧
      "=== Response Dump Error: boom\n" ∈
        (loggingRun none (.ok "D") (fun _ => .error "boom")
          (.ok ⟨200, [], some (.ok "body")⟩) ⟨[], none⟩).2 :=
  have h := (c7_logging_errors none (.ok "D") (fun _ => .error "boom")
    ⟨[], none⟩).2.1 ⟨200, [], some (.ok "body")⟩ "boom" rfl
  ⟨h.1, h.2.2.2⟩

/-- Claim C8: in the fan-out/fan-in system modelling
`DoGroupAsync`/`JoinAsyncResponses` over `n` calls, every reachable
state that carries a delivered output carries the list of length `n`
whose element at index `i` is the result of input call `i` — for every
interleaving of producer completions with the joiner, hence regardless
of completion order; each producer can always perform its single
buffered send while it has not yet sent (it never blocks on an absent
receiver); and the system never deadlocks before delivering the
output. -/
theorem c8_join_preserves_input_order {P : Type} (n : Nat) (p : Nat → P)
    (s : JoinState P)
    (h : Relation.ReflTransGen (JoinStep n p) (joinInit P) s) :
    (∀ l, s.out = some l → l = (List.range n).map p ∧ l.length = n) ∧
    (∀ i, i < n → s.sent i = false → JoinStep n p s (taskSend p i s)) ∧
    (s.out = none → ∃ t, JoinStep n p s t) := by
  have hinv := joinInv_reachable h
  refine ⟨?_, ?_, ?_⟩
  · intro l hl
    have h1 := hinv.2.2.2.2 l hl
    refine ⟨h1, ?_⟩
    rw [h1]
    simp
  · intro i hi hs
    exact .send s i hi hs
  · intro ho
    exact joinStep_progress hinv ho

theorem c8_join_preserves_input_order_witness :
    ([0, 1] : List Nat) = (List.range 2).map (fun i => i) ∧
      ([0, 1] : List Nat).length = 2 := by
  have h1 : JoinStep 2 (fun i => i) (joinInit Nat)
      (taskSend (fun i => i) 1 (joinInit Nat)) :=
    .send (joinInit Nat) 1 (by decide) rfl
  have h2 : JoinStep 2 (fun i => i) (taskSend (fun i => i) 1 (joinInit Nat))
      (taskSend (fun i => i) 0 (taskSend (fun i => i) 1 (joinInit Nat))) :=
    .send (taskSend (fun i => i) 1 (joinInit Nat)) 0 (by decide) rfl
  have h3 := JoinStep.recv (n := 2) (p := fun i => i)
    (taskSend (fun i => i) 0 (taskSend (fun i => i) 1 (joinInit Nat)))
    0 (by decide) rfl
  have h4 := JoinStep.recv (n := 2) (p := fun i => i)
    { taskSend (fun i => i) 0 (taskSend (fun i => i) 1 (joinInit Nat)) with
      acc := [0], k := 1 }
    1 (by decide) rfl
  have h5 := JoinStep.emit (n := 2) (p := fun i => i)
    { taskSend (fun i => i) 0 (taskSend (fun i => i) 1 (joinInit Nat)) with
      acc := [0, 1], k := 2 }
    rfl rfl
  have hchain := Relation.ReflTransGen.refl.tail h1 |>.tail h2 |>.tail h3
    |>.tail h4 |>.tail h5
  exact (c8_join_preserves_input_order 2 (fun i => i) _ hchain).1 [0, 1] rfl
